import Mathlib

/-!
Verification development for `tower-sessions-surrealdb-store`, a
`tower_sessions::SessionStore` implementation backed by SurrealDB
(`src/src/lib.rs`).

The embedding models:

* the session record type (`tower_sessions::session::Record`: an `i128`
  identifier, a string-keyed map of JSON-like values, and an expiry
  timestamp, modelled as an instant in nanoseconds since the Unix epoch);
* the record codec (`TryFrom<&Record> for DatabaseRecord` and back),
  with the external `rmp_serde` MessagePack serialization modelled as an
  executable, self-describing, length-delimited binary encoding of the
  full record, and the RFC 3339 / ISO 8601 timestamp formatting pipeline
  modelled on instants (formatting fails exactly when the year falls
  outside 0..=9999, the range the `time` crate's well-known formats accept);
* the transport encoder (`BASE64_STANDARD_NO_PAD.encode` client-side and
  SurrealDB's `encoding::base64::decode` server-side), implemented at the
  character level over the standard base64 alphabet without padding;
* the store operations `create`, `save`, `load`, `delete` and
  `delete_expired` as state transformers over an explicit database state
  (session table as an association list keyed by the `i64` row key, the
  counter row, and the server clock), following the SurrealQL semantics of
  the queries the source issues, including SurrealDB's cross-type value
  ordering under which a datetime always compares greater than a number.

Bytes are modelled as `Nat` with an explicit `< 256` bound where it
matters; machine integers are `Int` with explicit range conditions.
-/

set_option maxHeartbeats 1000000

namespace SurrealStore

/-! ## Byte-level primitives for the MessagePack model

The external `rmp_serde` library serializes the whole `Record` into a
self-describing binary blob.  We model it with an executable
length-delimited encoding built from a little-endian base-128 varint.
-/

/-- Little-endian base-128 varint encoding of a natural number: each byte
carries seven payload bits, the high bit marks a continuation. -/
def encVarNat (n : Nat) : List Nat :=
  if n < 128 then [n] else (n % 128 + 128) :: encVarNat (n / 128)
termination_by n
decreasing_by exact Nat.div_lt_self (by omega) (by omega)

/-- Decoder for `encVarNat`, returning the value and the unconsumed tail. -/
def decVarNat : List Nat → Option (Nat × List Nat)
  | [] => none
  | b :: rest =>
    if b < 128 then some (b, rest)
    else
      match decVarNat rest with
      | some (m, rest') => some (m * 128 + (b - 128), rest')
      | none => none

/-- Every byte emitted by `encVarNat` is a byte (smaller than 256). -/
theorem encVarNat_lt_256 (n : Nat) : ∀ b ∈ encVarNat n, b < 256 := by
  induction n using Nat.strong_induction_on with
  | _ n ih =>
    unfold encVarNat
    split
    · intro b hb; simp only [List.mem_singleton] at hb; omega
    · intro b hb
      simp only [List.mem_cons] at hb
      rcases hb with h | h
      · omega
      · exact ih (n / 128) (Nat.div_lt_self (by omega) (by omega)) b h

/-- Varint round trip: decoding an encoded value consumes exactly the
encoding and returns the value. -/
theorem decVarNat_encVarNat (n : Nat) (tl : List Nat) :
    decVarNat (encVarNat n ++ tl) = some (n, tl) := by
  induction n using Nat.strong_induction_on generalizing tl with
  | _ n ih =>
    unfold encVarNat
    split
    · simp [decVarNat, *]
    · rename_i h
      have hrec := ih (n / 128) (Nat.div_lt_self (by omega) (by omega)) tl
      have hb : ¬ (n % 128 + 128 < 128) := by omega
      have hn : n / 128 * 128 + (n % 128 + 128 - 128) = n := by omega
      simp only [List.cons_append, decVarNat, hb, if_false, List.append_eq,
        hrec, hn]

/-- Sign-tagged integer encoding over the varint: byte 0 introduces a
nonnegative value, byte 1 a negative one. -/
def encInt (n : Int) : List Nat :=
  if 0 ≤ n then 0 :: encVarNat n.toNat else 1 :: encVarNat (-(n + 1)).toNat

/-- Decoder for `encInt`. -/
def decInt : List Nat → Option (Int × List Nat)
  | 0 :: rest => (decVarNat rest).map (fun p => ((p.1 : Int), p.2))
  | 1 :: rest => (decVarNat rest).map (fun p => (-(p.1 : Int) - 1, p.2))
  | _ => none

/-- Integer round trip through the sign-tagged varint encoding. -/
theorem decInt_encInt (n : Int) (tl : List Nat) :
    decInt (encInt n ++ tl) = some (n, tl) := by
  unfold encInt
  split
  · rename_i h
    simp [decInt, decVarNat_encVarNat, Int.toNat_of_nonneg h]
  · rename_i h
    have h1 : (0 : Int) ≤ -(n + 1) := by omega
    simp [decInt, decVarNat_encVarNat, Int.toNat_of_nonneg h1]
    omega

/-- Bytes of `encInt` are bytes. -/
theorem encInt_lt_256 (n : Int) : ∀ b ∈ encInt n, b < 256 := by
  unfold encInt
  split <;> intro b hb <;> simp only [List.mem_cons] at hb <;>
    rcases hb with h | h
  · omega
  · exact encVarNat_lt_256 _ b h
  · omega
  · exact encVarNat_lt_256 _ b h

/-- String encoding: a character count followed by each character's
code point as a varint. -/
def encStr (s : String) : List Nat :=
  encVarNat s.data.length ++ (s.data.map (fun c => encVarNat c.toNat)).flatten

/-- Decode `k` characters, each a varint code point. -/
def decChars : Nat → List Nat → Option (List Char × List Nat)
  | 0, bs => some ([], bs)
  | k + 1, bs =>
    match decVarNat bs with
    | none => none
    | some (c, bs') =>
      match decChars k bs' with
      | none => none
      | some (cs, bs'') => some (Char.ofNat c :: cs, bs'')

/-- Decoder for `encStr`. -/
def decStr (bs : List Nat) : Option (String × List Nat) :=
  match decVarNat bs with
  | none => none
  | some (k, bs') =>
    match decChars k bs' with
    | none => none
    | some (cs, bs'') => some (String.mk cs, bs'')

theorem decChars_enc (cs : List Char) (tl : List Nat) :
    decChars cs.length ((cs.map (fun c => encVarNat c.toNat)).flatten ++ tl)
      = some (cs, tl) := by
  induction cs generalizing tl with
  | nil => simp [decChars]
  | cons c cs ih =>
    simp only [List.map_cons, List.flatten_cons, List.length_cons,
      List.append_assoc, decChars, decVarNat_encVarNat, ih,
      Char.ofNat_toNat]

/-- String round trip. -/
theorem decStr_encStr (s : String) (tl : List Nat) :
    decStr (encStr s ++ tl) = some (s, tl) := by
  unfold decStr encStr
  rw [List.append_assoc, decVarNat_encVarNat]
  simp only [decChars_enc]

/-- Bytes of `encStr` are bytes. -/
theorem encStr_lt_256 (s : String) : ∀ b ∈ encStr s, b < 256 := by
  unfold encStr
  intro b hb
  rw [List.mem_append] at hb
  rcases hb with h | h
  · exact encVarNat_lt_256 _ b h
  · rw [List.mem_flatten] at h
    obtain ⟨l, hl, hbl⟩ := h
    rw [List.mem_map] at hl
    obtain ⟨c, _, rfl⟩ := hl
    exact encVarNat_lt_256 _ b hbl

/-! ## JSON values

The session payload is a `HashMap<String, serde_json::Value>`.  We model
`serde_json::Value` with numbers as integers (the store never interprets
payload contents, so the payload model only has to be a faithful
self-describing value domain).
-/

/-- Model of `serde_json::Value` as stored in a session record's data map. -/
inductive JsonValue where
  | null : JsonValue
  | bool (b : Bool) : JsonValue
  | int (n : Int) : JsonValue
  | str (s : String) : JsonValue
  | arr (xs : List JsonValue) : JsonValue
  | obj (xs : List (String × JsonValue)) : JsonValue

mutual

/-- Tagged encoding of a JSON value. -/
def encJson : JsonValue → List Nat
  | .null => [0]
  | .bool false => [1]
  | .bool true => [2]
  | .int n => 3 :: encInt n
  | .str s => 4 :: encStr s
  | .arr xs => 5 :: (encVarNat xs.length ++ encJsonList xs)
  | .obj xs => 6 :: (encVarNat xs.length ++ encJsonObj xs)

/-- Concatenated encodings of a list of JSON values. -/
def encJsonList : List JsonValue → List Nat
  | [] => []
  | v :: vs => encJson v ++ encJsonList vs

/-- Concatenated encodings of string-keyed JSON entries. -/
def encJsonObj : List (String × JsonValue) → List Nat
  | [] => []
  | (k, v) :: vs => encStr k ++ (encJson v ++ encJsonObj vs)

end

mutual

/-- Fueled decoder for `encJson`; the fuel bounds the nesting depth. -/
def decJson : Nat → List Nat → Option (JsonValue × List Nat)
  | 0, _ => none
  | _ + 1, 0 :: r => some (.null, r)
  | _ + 1, 1 :: r => some (.bool false, r)
  | _ + 1, 2 :: r => some (.bool true, r)
  | _ + 1, 3 :: r => (decInt r).map (fun p => (.int p.1, p.2))
  | _ + 1, 4 :: r => (decStr r).map (fun p => (.str p.1, p.2))
  | fuel + 1, 5 :: r =>
    match decVarNat r with
    | none => none
    | some (n, r') =>
      match decJsonList fuel n r' with
      | none => none
      | some (xs, r'') => some (.arr xs, r'')
  | fuel + 1, 6 :: r =>
    match decVarNat r with
    | none => none
    | some (n, r') =>
      match decJsonObj fuel n r' with
      | none => none
      | some (xs, r'') => some (.obj xs, r'')
  | _ + 1, _ => none
termination_by fuel _ => (fuel, 0)

/-- Decode `n` JSON values in sequence. -/
def decJsonList : Nat → Nat → List Nat → Option (List JsonValue × List Nat)
  | _, 0, bs => some ([], bs)
  | fuel, n + 1, bs =>
    match decJson fuel bs with
    | none => none
    | some (v, r) =>
      match decJsonList fuel n r with
      | none => none
      | some (vs, r') => some (v :: vs, r')
termination_by fuel n _ => (fuel, n + 1)

/-- Decode `n` string-keyed JSON entries in sequence. -/
def decJsonObj : Nat → Nat → List Nat → Option (List (String × JsonValue) × List Nat)
  | _, 0, bs => some ([], bs)
  | fuel, n + 1, bs =>
    match decStr bs with
    | none => none
    | some (k, r0) =>
      match decJson fuel r0 with
      | none => none
      | some (v, r) =>
        match decJsonObj fuel n r with
        | none => none
        | some (vs, r') => some ((k, v) :: vs, r')
termination_by fuel n _ => (fuel, n + 1)

end

mutual

/-- Nesting depth of a JSON value, the fuel the decoder needs. -/
def jsonDepth : JsonValue → Nat
  | .null => 1
  | .bool _ => 1
  | .int _ => 1
  | .str _ => 1
  | .arr xs => jsonDepthList xs + 1
  | .obj xs => jsonDepthObj xs + 1

/-- Maximal nesting depth over a list of JSON values. -/
def jsonDepthList : List JsonValue → Nat
  | [] => 0
  | v :: vs => max (jsonDepth v) (jsonDepthList vs)

/-- Maximal nesting depth over string-keyed JSON entries. -/
def jsonDepthObj : List (String × JsonValue) → Nat
  | [] => 0
  | (_, v) :: vs => max (jsonDepth v) (jsonDepthObj vs)

end

/-- Round trip of the JSON codec, in all three mutual forms at once:
with fuel at least the nesting depth, decoding an encoding returns the
original value and the untouched tail. -/
theorem decJson_encJson_all (fuel : Nat) :
    (∀ v tl, jsonDepth v ≤ fuel →
      decJson fuel (encJson v ++ tl) = some (v, tl)) ∧
    (∀ xs tl, jsonDepthList xs ≤ fuel →
      decJsonList fuel xs.length (encJsonList xs ++ tl) = some (xs, tl)) ∧
    (∀ xs tl, jsonDepthObj xs ≤ fuel →
      decJsonObj fuel xs.length (encJsonObj xs ++ tl) = some (xs, tl)) := by
  induction fuel using Nat.strong_induction_on with
  | _ fuel ih =>
    have h1 : ∀ v tl, jsonDepth v ≤ fuel →
        decJson fuel (encJson v ++ tl) = some (v, tl) := by
      intro v tl h
      match fuel with
      | 0 => cases v <;> simp [jsonDepth] at h
      | f + 1 =>
        cases v with
        | null => simp [encJson, decJson]
        | bool b => cases b <;> simp [encJson, decJson]
        | int n => simp [encJson, decJson, decInt_encInt]
        | str s => simp [encJson, decJson, decStr_encStr]
        | arr xs =>
          have hd : jsonDepthList xs ≤ f := by
            simp only [jsonDepth] at h; omega
          have hlist := (ih f (Nat.lt_succ_self f)).2.1 xs tl hd
          simp only [encJson, List.cons_append, List.append_assoc, decJson,
            decVarNat_encVarNat, hlist]
        | obj xs =>
          have hd : jsonDepthObj xs ≤ f := by
            simp only [jsonDepth] at h; omega
          have hobj := (ih f (Nat.lt_succ_self f)).2.2 xs tl hd
          simp only [encJson, List.cons_append, List.append_assoc, decJson,
            decVarNat_encVarNat, hobj]
    refine ⟨h1, ?_, ?_⟩
    · intro xs
      induction xs with
      | nil => intro tl h; simp [encJsonList, decJsonList]
      | cons v vs ihv =>
        intro tl h
        simp only [jsonDepthList] at h
        have hv := h1 v (encJsonList vs ++ tl) (by omega)
        have hvs := ihv tl (by omega)
        simp only [encJsonList, List.length_cons, List.append_assoc,
          decJsonList, hv, hvs]
    · intro xs
      induction xs with
      | nil => intro tl h; simp [encJsonObj, decJsonObj]
      | cons kv vs ihv =>
        intro tl h
        obtain ⟨k, v⟩ := kv
        simp only [jsonDepthObj] at h
        have hv := h1 v (encJsonObj vs ++ tl) (by omega)
        have hvs := ihv tl (by omega)
        simp only [encJsonObj, List.length_cons, List.append_assoc,
          decJsonObj, decStr_encStr, hv, hvs]

mutual

/-- The decoder fuel a value needs is at most its encoded length. -/
theorem jsonDepth_le_encLength : (v : JsonValue) → jsonDepth v ≤ (encJson v).length
  | .null => by simp [jsonDepth, encJson]
  | .bool b => by cases b <;> simp [jsonDepth, encJson]
  | .int n => by simp [jsonDepth, encJson]
  | .str s => by simp [jsonDepth, encJson]
  | .arr xs => by
    have h := jsonDepthList_le_encLength xs
    simp only [jsonDepth, encJson, List.length_cons, List.length_append]
    omega
  | .obj xs => by
    have h := jsonDepthObj_le_encLength xs
    simp only [jsonDepth, encJson, List.length_cons, List.length_append]
    omega

/-- List form of `jsonDepth_le_encLength`. -/
theorem jsonDepthList_le_encLength :
    (xs : List JsonValue) → jsonDepthList xs ≤ (encJsonList xs).length
  | [] => by simp [jsonDepthList, encJsonList]
  | v :: vs => by
    have h1 := jsonDepth_le_encLength v
    have h2 := jsonDepthList_le_encLength vs
    simp only [jsonDepthList, encJsonList, List.length_append]
    omega

/-- Entry-list form of `jsonDepth_le_encLength`. -/
theorem jsonDepthObj_le_encLength :
    (xs : List (String × JsonValue)) → jsonDepthObj xs ≤ (encJsonObj xs).length
  | [] => by simp [jsonDepthObj, encJsonObj]
  | (k, v) :: vs => by
    have h1 := jsonDepth_le_encLength v
    have h2 := jsonDepthObj_le_encLength vs
    simp only [jsonDepthObj, encJsonObj, List.length_append]
    omega

end

mutual

/-- Every byte of an encoded JSON value is a byte. -/
theorem encJson_lt_256 : (v : JsonValue) → ∀ b ∈ encJson v, b < 256
  | .null => by intro b hb; simp [encJson] at hb; omega
  | .bool b' => by
    cases b' <;> (intro b hb; simp [encJson] at hb; omega)
  | .int n => by
    intro b hb
    simp only [encJson, List.mem_cons] at hb
    rcases hb with h | h
    · omega
    · exact encInt_lt_256 n b h
  | .str s => by
    intro b hb
    simp only [encJson, List.mem_cons] at hb
    rcases hb with h | h
    · omega
    · exact encStr_lt_256 s b h
  | .arr xs => by
    intro b hb
    simp only [encJson, List.mem_cons, List.mem_append] at hb
    rcases hb with h | h | h
    · omega
    · exact encVarNat_lt_256 _ b h
    · exact encJsonList_lt_256 xs b h
  | .obj xs => by
    intro b hb
    simp only [encJson, List.mem_cons, List.mem_append] at hb
    rcases hb with h | h | h
    · omega
    · exact encVarNat_lt_256 _ b h
    · exact encJsonObj_lt_256 xs b h

/-- List form of `encJson_lt_256`. -/
theorem encJsonList_lt_256 : (xs : List JsonValue) → ∀ b ∈ encJsonList xs, b < 256
  | [] => by intro b hb; simp [encJsonList] at hb
  | v :: vs => by
    intro b hb
    simp only [encJsonList, List.mem_append] at hb
    rcases hb with h | h
    · exact encJson_lt_256 v b h
    · exact encJsonList_lt_256 vs b h

/-- Entry-list form of `encJson_lt_256`. -/
theorem encJsonObj_lt_256 :
    (xs : List (String × JsonValue)) → ∀ b ∈ encJsonObj xs, b < 256
  | [] => by intro b hb; simp [encJsonObj] at hb
  | (k, v) :: vs => by
    intro b hb
    simp only [encJsonObj, List.mem_append] at hb
    rcases hb with h | h | h
    · exact encStr_lt_256 k b h
    · exact encJson_lt_256 v b h
    · exact encJsonObj_lt_256 vs b h

end

/-! ## Session records and the MessagePack model of `rmp_serde` -/

/-- Model of `tower_sessions::session::Record`: the caller-owned session
record.  `id` models `Id(pub i128)` as an unbounded integer (range
conditions are stated explicitly where the code converts it); `data`
models the `HashMap<String, serde_json::Value>` payload as an association
list; `expiry_date` models the `time::OffsetDateTime` as an instant in
nanoseconds since the Unix epoch (the `time` crate compares and formats
`OffsetDateTime`s by instant). -/
structure Record where
  id : Int
  data : List (String × JsonValue)
  expiry_date : Int

/-- MessagePack has only 64-bit integer formats, so `rmp_serde` can
serialize the record's `i128` identifier exactly when it fits the union of
the `i64` and `u64` ranges. -/
def msgpackRepresentable (n : Int) : Bool :=
  decide (-(2 ^ 63) ≤ n) && decide (n < 2 ^ 64)

/-- Models the external `rmp_serde::to_vec(record)`: a self-describing,
injective, length-delimited binary serialization of the full record
(identifier, payload map, expiry), failing exactly when the `i128`
identifier is not MessagePack-representable. -/
def rmpToVec (r : Record) : Except String (List Nat) :=
  if msgpackRepresentable r.id then
    .ok (encInt r.id ++ encVarNat r.data.length ++ encJsonObj r.data
      ++ encInt r.expiry_date)
  else .error "out of range integral type conversion attempted"

/-- Models the external `rmp_serde::from_slice`: parses the identifier,
the payload map header and entries, and the expiry, requiring the whole
input to be consumed; any malformed or truncated input is an error
value. -/
def rmpFromSlice (bs : List Nat) : Except String Record :=
  match decInt bs with
  | none => .error "invalid MessagePack data: identifier"
  | some (id, r1) =>
    match decVarNat r1 with
    | none => .error "invalid MessagePack data: map header"
    | some (n, r2) =>
      match decJsonObj r2.length n r2 with
      | none => .error "invalid MessagePack data: map entries"
      | some (data, r3) =>
        match decInt r3 with
        | none => .error "invalid MessagePack data: expiry"
        | some (expiry, r4) =>
          match r4 with
          | [] => .ok ⟨id, data, expiry⟩
          | _ => .error "invalid MessagePack data: trailing bytes"

/-- MessagePack round trip: deserializing a serialized record returns the
record exactly (identifier, payload and expiry included). -/
theorem rmpFromSlice_rmpToVec (r : Record) (bs : List Nat)
    (h : rmpToVec r = .ok bs) : rmpFromSlice bs = .ok r := by
  unfold rmpToVec at h
  split at h
  case isFalse => exact Except.noConfusion h
  simp only [Except.ok.injEq] at h
  subst h
  unfold rmpFromSlice
  have hfuel : jsonDepthObj r.data
      ≤ (encJsonObj r.data ++ encInt r.expiry_date).length := by
    have h1 := jsonDepthObj_le_encLength r.data
    simp only [List.length_append]
    omega
  have hobj := (decJson_encJson_all
      (encJsonObj r.data ++ encInt r.expiry_date).length).2.2
      r.data (encInt r.expiry_date) hfuel
  have hexp : decInt (encInt r.expiry_date) = some (r.expiry_date, []) := by
    have h2 := decInt_encInt r.expiry_date []
    simpa using h2
  simp only [List.append_assoc, decInt_encInt, decVarNat_encVarNat, hobj,
    hexp]

/-- Every byte of a serialized record is a byte. -/
theorem rmpToVec_lt_256 (r : Record) (bs : List Nat)
    (h : rmpToVec r = .ok bs) : ∀ b ∈ bs, b < 256 := by
  unfold rmpToVec at h
  split at h
  case isFalse => exact Except.noConfusion h
  simp only [Except.ok.injEq] at h
  subst h
  intro b hb
  simp only [List.mem_append] at hb
  rcases hb with ((h | h) | h) | h
  · exact encInt_lt_256 _ b h
  · exact encVarNat_lt_256 _ b h
  · exact encJsonObj_lt_256 _ b h
  · exact encInt_lt_256 _ b h

/-! ## Transport encoder

`create` embeds the serialized blob in the query text with
`BASE64_STANDARD_NO_PAD.encode` and has the server decode it with
SurrealDB's `encoding::base64::decode`.  Both ends use standard base64
without padding; we implement them at the character level.
-/

/-- The standard base64 alphabet. -/
def b64Alphabet : List Char :=
  "ABCDEFGHIJKLMNOPQRSTUVWXYZabcdefghijklmnopqrstuvwxyz0123456789+/".data

/-- Character for a sextet. -/
def b64Char (n : Nat) : Char := b64Alphabet.getD n 'A'

/-- Sextet for a character, if it is in the alphabet. -/
def b64Index (c : Char) : Option Nat :=
  let i := b64Alphabet.indexOf c
  if i < 64 then some i else none

/-- Sextet stream of a byte stream, grouping three bytes into four
sextets, as standard base64 without padding produces it. -/
def b64Sextets : List Nat → List Nat
  | [] => []
  | [b1] => [b1 / 4, b1 % 4 * 16]
  | [b1, b2] => [b1 / 4, b1 % 4 * 16 + b2 / 16, b2 % 16 * 4]
  | b1 :: b2 :: b3 :: rest =>
    b1 / 4 :: (b1 % 4 * 16 + b2 / 16) :: (b2 % 16 * 4 + b3 / 64) :: b3 % 64 ::
      b64Sextets rest

/-- Models `BASE64_STANDARD_NO_PAD.encode(bytes)` from the `base64`
crate: the padding-free standard-alphabet text for a byte sequence.
This is a pure function of the bytes. -/
def toTransportSafe (bs : List Nat) : String :=
  String.mk ((b64Sextets bs).map b64Char)

/-- Byte stream from a sextet stream; a stream whose length is 1 mod 4
is invalid. -/
def b64Unsextets : List Nat → Option (List Nat)
  | [] => some []
  | [_] => none
  | [c1, c2] => some [c1 * 4 + c2 / 16]
  | [c1, c2, c3] => some [c1 * 4 + c2 / 16, c2 % 16 * 16 + c3 / 4]
  | c1 :: c2 :: c3 :: c4 :: rest =>
    match b64Unsextets rest with
    | none => none
    | some bs =>
      some ((c1 * 4 + c2 / 16) :: (c2 % 16 * 16 + c3 / 4)
        :: (c3 % 4 * 64 + c4) :: bs)

/-- Models the server-side `encoding::base64::decode` applied to the
embedded text: each character is mapped back to its sextet (a character
outside the alphabet is an error) and the sextets are regrouped into
bytes. -/
def fromTransportSafe (s : String) : Except String (List Nat) :=
  match s.data.mapM b64Index with
  | none => .error "invalid base64 character"
  | some cs =>
    match b64Unsextets cs with
    | none => .error "invalid base64 length"
    | some bs => .ok bs

/-- Alphabet round trip on every sextet. -/
theorem b64Index_b64Char : ∀ n : Fin 64, b64Index (b64Char n.val) = some n.val := by
  decide

/-- Sextets of a byte stream are sextets. -/
theorem b64Sextets_lt_64 : (bs : List Nat) → (∀ b ∈ bs, b < 256) →
    ∀ c ∈ b64Sextets bs, c < 64
  | [] => by intro _ c hc; simp [b64Sextets] at hc
  | [b1] => by
    intro h c hc
    have h1 : b1 < 256 := h b1 (by simp)
    simp [b64Sextets] at hc
    rcases hc with rfl | rfl <;> omega
  | [b1, b2] => by
    intro h c hc
    have h1 : b1 < 256 := h b1 (by simp)
    have h2 : b2 < 256 := h b2 (by simp)
    simp [b64Sextets] at hc
    rcases hc with rfl | rfl | rfl <;> omega
  | b1 :: b2 :: b3 :: rest => by
    intro h c hc
    have h1 : b1 < 256 := h b1 (by simp)
    have h2 : b2 < 256 := h b2 (by simp)
    have h3 : b3 < 256 := h b3 (by simp)
    have ih := b64Sextets_lt_64 rest (fun b hb => h b (by simp [hb]))
    simp only [b64Sextets, List.mem_cons] at hc
    rcases hc with rfl | rfl | rfl | rfl | hc
    · omega
    · omega
    · omega
    · omega
    · exact ih c hc

/-- Mapping the alphabet back over an encoded sextet stream recovers the
sextets. -/
theorem mapM_b64Index (cs : List Nat) (h : ∀ c ∈ cs, c < 64) :
    (cs.map b64Char).mapM b64Index = some cs := by
  induction cs with
  | nil => rfl
  | cons c cs ih =>
    have hc : c < 64 := h c (by simp)
    have h1 := b64Index_b64Char ⟨c, hc⟩
    simp only [List.map_cons, List.mapM_cons, h1, Option.bind_eq_bind,
      Option.some_bind, ih (fun x hx => h x (by simp [hx])), Option.map_some]
    rfl

/-- Regrouping the sextets of a byte stream recovers the bytes. -/
theorem b64Unsextets_b64Sextets : (bs : List Nat) → (∀ b ∈ bs, b < 256) →
    b64Unsextets (b64Sextets bs) = some bs
  | [] => by intro _; simp [b64Sextets, b64Unsextets]
  | [b1] => by
    intro h
    have h1 : b1 < 256 := h b1 (by simp)
    simp only [b64Sextets, b64Unsextets, Option.some.injEq, List.cons.injEq,
      and_true]
    omega
  | [b1, b2] => by
    intro h
    have h1 : b1 < 256 := h b1 (by simp)
    have h2 : b2 < 256 := h b2 (by simp)
    simp only [b64Sextets, b64Unsextets, Option.some.injEq, List.cons.injEq,
      and_true]
    constructor <;> omega
  | b1 :: b2 :: b3 :: rest => by
    intro h
    have h1 : b1 < 256 := h b1 (by simp)
    have h2 : b2 < 256 := h b2 (by simp)
    have h3 : b3 < 256 := h b3 (by simp)
    have ih := b64Unsextets_b64Sextets rest (fun b hb => h b (by simp [hb]))
    have e1 : b1 / 4 * 4 + (b1 % 4 * 16 + b2 / 16) / 16 = b1 := by omega
    have e2 : (b1 % 4 * 16 + b2 / 16) % 16 * 16
        + (b2 % 16 * 4 + b3 / 64) / 4 = b2 := by omega
    have e3 : (b2 % 16 * 4 + b3 / 64) % 4 * 64 + b3 % 64 = b3 := by omega
    simp only [b64Sextets, b64Unsextets, ih, e1, e2, e3]

/-- Transport round trip: decoding the padding-free base64 text produced
for a byte sequence returns exactly that sequence. -/
theorem fromTransportSafe_toTransportSafe (bs : List Nat)
    (h : ∀ b ∈ bs, b < 256) :
    fromTransportSafe (toTransportSafe bs) = .ok bs := by
  unfold fromTransportSafe toTransportSafe
  simp only [mapM_b64Index _ (b64Sextets_lt_64 bs h),
    b64Unsextets_b64Sextets bs h]

/-! ## Timestamp formatting chains -/

/-- Nanoseconds since the Unix epoch of the first instant of year 0, the
earliest instant the `time` crate's RFC 3339 / ISO 8601 well-known
formats accept. -/
def formatMinNanos : Int := -62167219200 * 1000000000

/-- Nanoseconds since the Unix epoch of the first instant of year 10000,
the first instant those formats reject. -/
def formatMaxNanos : Int := 253402300800 * 1000000000

/-- Whether the well-known textual formats can render the instant: the
`time` crate's RFC 3339 and default ISO 8601 formats cover years
0 through 9999 only. -/
def formatYearOk (t : Int) : Bool :=
  decide (formatMinNanos ≤ t) && decide (t < formatMaxNanos)

/-- Models `record.expiry_date.format(&Rfc3339)` followed by the
`chrono::DateTime<Utc>` parse and `surrealdb::Datetime::from`: the chain
preserves the instant at nanosecond precision and fails exactly when the
year is outside 0..=9999. -/
def rfc3339Chain (t : Int) : Option Int :=
  if formatYearOk t then some t else none

/-- Models `format(&Iso8601::<FORMAT_CONFIG>)` (six fractional digits)
followed by the server-side `<datetime>` cast in the `create` query: the
text carries microseconds, so the stored instant is the original
truncated to microsecond precision; formatting fails exactly when the
year is outside 0..=9999. -/
def iso8601MicroChain (t : Int) : Option Int :=
  if formatYearOk t then some (1000 * (t.fdiv 1000)) else none

/-! ## The record codec (`TryFrom` impls of `src/src/lib.rs`) -/

/-- Model of `tower_sessions::session_store::Error`: the three error
kinds a store operation can surface. -/
inductive StoreError where
  | encode (msg : String) : StoreError
  | decode (msg : String) : StoreError
  | backend (msg : String) : StoreError
deriving DecidableEq, Repr

/-- Model of the `DatabaseRecord` row content: the serialized blob (a
byte sequence) and the database-native timestamp. -/
structure DatabaseRecord where
  record : List Nat
  expiry_date : Int
deriving DecidableEq, Repr

/-- Models `TryFrom<&Record> for DatabaseRecord` (`src/src/lib.rs:73`):
format the expiry with RFC 3339, reparse it through `chrono` into the
database timestamp, and serialize the whole record with
`rmp_serde::to_vec`; every failure is mapped to `Error::Encode`. -/
def databaseRecordTryFrom (record : Record) : Except StoreError DatabaseRecord :=
  match rfc3339Chain record.expiry_date with
  | none => .error (.encode "rfc3339 format failed")
  | some chrono_datetime =>
    match rmpToVec record with
    | .error e => .error (.encode e)
    | .ok blob => .ok ⟨blob, chrono_datetime⟩

/-- Models `TryFrom<DatabaseRecord> for Record` (`src/src/lib.rs:90`):
deserialize the blob with `rmp_serde::from_slice`, mapping failure to
`Error::Decode`. -/
def recordTryFrom (database_record : DatabaseRecord) : Except StoreError Record :=
  match rmpFromSlice database_record.record with
  | .error e => .error (.decode e)
  | .ok r => .ok r

/-- Outcome of running a Rust function that may terminate the process. -/
inductive RustOutcome (α : Type) where
  | ok (a : α) : RustOutcome α
  | panicked (msg : String) : RustOutcome α

/-- Models `From<&Record> for DatabaseRecord` of `src/src/main.rs:71`,
the binary's naive variant of the codec, whose failure paths call
`expect`: a formatting or serialization failure terminates the
process. -/
def mainFromRecord (record : Record) : RustOutcome DatabaseRecord :=
  match rfc3339Chain record.expiry_date with
  | none => .panicked
      "interim_datetime_string conversion from record expiry date failed"
  | some chrono_datetime =>
    match rmpToVec record with
    | .error _ => .panicked
        "MessagePack encoding should never fail because the library creator uses rmp_serde himself"
    | .ok blob => .ok ⟨blob, chrono_datetime⟩

/-- Models `From<DatabaseRecord> for Record` of `src/src/main.rs:86`, the
binary's naive decode whose failure path calls `expect`. -/
def mainIntoRecord (database_record : DatabaseRecord) : RustOutcome Record :=
  match rmpFromSlice database_record.record with
  | .error _ => .panicked
      "Shouldn't fail here because the record was used to put the data here"
  | .ok r => .ok r

/-! ## Database state and the SurrealQL fragments the store issues -/

/-- Database state visible to the store: the session table as an
association list keyed by the `i64` row key, the counter document of the
`sessions_latest_id` table (`none` while absent), and the server clock
in nanoseconds since the epoch. -/
structure Db where
  sessions : List (Int × DatabaseRecord)
  counter : Option Int
  now : Int
deriving DecidableEq, Repr

/-- Row of the session table by key. -/
def tableGet : List (Int × DatabaseRecord) → Int → Option DatabaseRecord
  | [], _ => none
  | (k', v) :: rest, k => if k = k' then some v else tableGet rest k

/-- Replace the content of an existing row (`UPDATE ... CONTENT`). -/
def tableSet : List (Int × DatabaseRecord) → Int → DatabaseRecord →
    List (Int × DatabaseRecord)
  | [], _, _ => []
  | (k', v') :: rest, k, v =>
    if k = k' then (k, v) :: rest else (k', v') :: tableSet rest k v

/-- Remove a row by key (`DELETE` by record id). -/
def tableRemove : List (Int × DatabaseRecord) → Int → List (Int × DatabaseRecord)
  | [], _ => []
  | (k', v') :: rest, k =>
    if k = k' then tableRemove rest k else (k', v') :: tableRemove rest k

/-- Models `i64::try_from` on the record's `i128` identifier
(`record.id.0.try_into()`): succeeds exactly on the signed 64-bit
range. -/
def i128TryIntoI64 (n : Int) : Option Int :=
  if -(2 ^ 63) ≤ n ∧ n < 2 ^ 63 then some n else none

/-- SurrealDB value as it appears in the `delete_expired` WHERE clause,
which compares the datetime field `expiry_date` with the integer
returned by `time::unix(time::now())`. -/
inductive SurrealValue where
  | number (n : Int) : SurrealValue
  | datetime (t : Int) : SurrealValue
deriving DecidableEq, Repr

/-- SurrealDB's `<=` on values: values of different kinds compare by the
declaration order of the `Value` enum, under which every number sorts
strictly before every datetime. -/
def surrealLe : SurrealValue → SurrealValue → Bool
  | .number a, .number b => decide (a ≤ b)
  | .datetime a, .datetime b => decide (a ≤ b)
  | .number _, .datetime _ => true
  | .datetime _, .number _ => false

/-- Models `time::unix(time::now())`: the whole seconds of the server
clock. -/
def timeUnix (now : Int) : Int := now.fdiv 1000000000

/-! ## The store operations (`SessionStore` / `ExpiredDeletion` impls)

Each operation takes the database state and a `netOk` flag modelling
whether the client request itself succeeds (a failed `.await` surfaces as
`Error::Backend`).  Operations return the database state after the call;
a failed call leaves the database as SurrealDB's transaction rollback and
error reporting leave it.
-/

/-- Models `create` (`src/src/lib.rs:307`).  Client-side: serialize the
record (`TryFrom`), format the expiry with ISO 8601, base64-encode the
blob into the query text.  Server-side, as one all-or-nothing
transaction: `UPSERT ... SET num += 1` on the counter document (value 1
when absent, else incremented), then `CREATE` the session row keyed by
the post-increment counter value, with the `<datetime>` cast of the
embedded text and `encoding::base64::decode` of the embedded blob; a
failing `CREATE` (row key already present) cancels the transaction.  On
success the returned `RecordId`'s number is assigned to the caller's
record identifier in place.  The result triple is the database, the
caller's record after the call, and the returned
`session_store::Result<()>`. -/
def create (db : Db) (record : Record) (netOk : Bool) :
    Db × Record × Except StoreError Unit :=
  match databaseRecordTryFrom record with
  | .error e => (db, record, .error e)
  | .ok surrealdb_record =>
    match iso8601MicroChain record.expiry_date with
    | none => (db, record, .error (.encode "iso8601 format failed"))
    | some expiry_instant =>
      let record_data := toTransportSafe surrealdb_record.record
      if netOk then
        let num := (match db.counter with | none => 0 | some n => n) + 1
        match tableGet db.sessions num with
        | some _ =>
          (db, record, .error (.backend
            "Record was not created so no ID was returned"))
        | none =>
          match fromTransportSafe record_data with
          | .error _ =>
            (db, record, .error (.backend "encoding::base64::decode failed"))
          | .ok bytes =>
            ( { db with
                  counter := some num
                  , sessions := (num, ⟨bytes, expiry_instant⟩) :: db.sessions }
              , { record with id := num }
              , .ok () )
      else (db, record, .error (.backend "client request failed"))

/-- Models `save` (`src/src/lib.rs:335`): serialize the record, convert
the `i128` identifier with `try_into` (out of range surfaces as
`Error::Encode` with the distinct range message), then
`update(...).content(...)`, which replaces the content of an existing
row only; `None` (no row updated) is surfaced as `Error::Backend`. -/
def save (db : Db) (record : Record) (netOk : Bool) :
    Db × Except StoreError Unit :=
  match databaseRecordTryFrom record with
  | .error e => (db, .error e)
  | .ok surrealdb_record =>
    match i128TryIntoI64 record.id with
    | none =>
      (db, .error (.encode "ID was out of range for target data type of i64"))
    | some id_i64 =>
      if netOk then
        match tableGet db.sessions id_i64 with
        | none =>
          (db, .error (.backend "No record was updated. Probably ID not found"))
        | some _ =>
          ({ db with sessions := tableSet db.sessions id_i64 surrealdb_record }
            , .ok ())
      else (db, .error (.backend "client request failed"))

/-- Models `load` (`src/src/lib.rs:348`): select the row by identifier
with the server-side liveness filter `expiry_date > time::now()` (both
datetimes), decode the blob on a hit and overwrite the decoded record's
identifier with the caller-supplied one.  The identifier is bound
directly (no `i64` conversion); row keys are `i64` values, so an
out-of-range identifier simply matches no row. -/
def load (db : Db) (session_id : Int) (netOk : Bool) :
    Except StoreError (Option Record) :=
  if netOk then
    let result : Option DatabaseRecord :=
      match tableGet db.sessions session_id with
      | none => none
      | some row => if db.now < row.expiry_date then some row else none
    match result with
    | some data =>
      match recordTryFrom data with
      | .error _ =>
        .error (.decode "Database record could not be converted to type Record")
      | .ok prelim_record => .ok (some { prelim_record with id := session_id })
    | none => .ok none
  else .error (.backend "client request failed")

/-- Models `delete` (`src/src/lib.rs:374`): convert the identifier with
`try_into` (out of range surfaces as `Error::Encode` with the distinct
range message), then delete by record id, ignoring the returned row;
deleting an absent row succeeds. -/
def delete (db : Db) (session_id : Int) (netOk : Bool) :
    Db × Except StoreError Unit :=
  match i128TryIntoI64 session_id with
  | none =>
    (db, .error (.encode "ID was out of range for target data type of i64"))
  | some id_i64 =>
    if netOk then
      ({ db with sessions := tableRemove db.sessions id_i64 }, .ok ())
    else (db, .error (.backend "client request failed"))

/-- Models `delete_expired` (`src/src/lib.rs:288`): the query
`delete $table where expiry_date <= time::unix(time::now())` with the
session table name bound as the string parameter `$table`.  The model is
generous to the code in one respect: it treats the statement as reaching
the session table's rows (the bound value is in fact a strand, which
`DELETE` does not resolve to a table), and removes every row whose
`expiry_date` datetime compares `<=` to the integer
`time::unix(time::now())` under SurrealDB's value ordering
`surrealLe`. -/
def delete_expired (db : Db) (netOk : Bool) : Db × Except StoreError Unit :=
  if netOk then
    ( { db with sessions := db.sessions.filter (fun kv =>
          !(surrealLe (.datetime kv.2.expiry_date) (.number (timeUnix db.now)))) }
      , .ok () )
  else (db, .error (.backend "client request failed"))

/-! ## Operation sequences, for the counter invariants -/

/-- One caller-level operation against the store. -/
inductive Op where
  | create (r : Record) (netOk : Bool) : Op
  | save (r : Record) (netOk : Bool) : Op
  | load (id : Int) (netOk : Bool) : Op
  | delete (id : Int) (netOk : Bool) : Op
  | deleteExpired (netOk : Bool) : Op

/-- Database state after one operation. -/
def stepDb (db : Db) : Op → Db
  | .create r netOk => (create db r netOk).1
  | .save r netOk => (save db r netOk).1
  | .load _ _ => db
  | .delete id netOk => (delete db id netOk).1
  | .deleteExpired netOk => (delete_expired db netOk).1

/-- Database state after a sequence of operations. -/
def runOps (db : Db) : List Op → Db
  | [] => db
  | op :: ops => runOps (stepDb db op) ops

/-- Identifiers assigned to callers by the successful creates of a run,
in order. -/
def createdIds (db : Db) : List Op → List Int
  | [] => []
  | .create r netOk :: ops =>
    match create db r netOk with
    | (db', rec', .ok _) => rec'.id :: createdIds db' ops
    | (db', _, .error _) => createdIds db' ops
  | op :: ops => createdIds (stepDb db op) ops

/-- Number of successful creates in a run. -/
def numCreated (db : Db) : List Op → Nat
  | [] => 0
  | .create r netOk :: ops =>
    match create db r netOk with
    | (db', _, .ok _) => numCreated db' ops + 1
    | (db', _, .error _) => numCreated db' ops
  | op :: ops => numCreated (stepDb db op) ops

/-- Value of the counter document, 0 while it is absent. -/
def counterVal (db : Db) : Int :=
  match db.counter with
  | none => 0
  | some n => n

theorem counterVal_match (db : Db) :
    (match db.counter with | none => 0 | some n => n) = counterVal db := rfl

/-- Anatomy of a successful `create`: the counter document was upserted to
its previous value plus one, a fresh session row keyed by that value holds
the serialized blob (round-tripped through the transport encoding) and the
microsecond-truncated expiry, and the caller's record identifier was set
to that value. -/
theorem create_ok_elim (db : Db) (r : Record) (netOk : Bool) (db' : Db)
    (r' : Record) (u : Unit) (h : create db r netOk = (db', r', .ok u)) :
    ∃ blob,
      rmpToVec r = .ok blob ∧
      netOk = true ∧
      tableGet db.sessions (counterVal db + 1) = none ∧
      db' = { db with
                counter := some (counterVal db + 1)
                , sessions := (counterVal db + 1,
                    ⟨blob, 1000 * (r.expiry_date.fdiv 1000)⟩) :: db.sessions } ∧
      r' = { r with id := counterVal db + 1 } := by
  simp only [create] at h
  split at h
  · exact absurd h (by simp)
  rename_i sdbrec hdb
  split at h
  · exact absurd h (by simp)
  rename_i t hiso
  split at h
  case isFalse => exact absurd h (by simp)
  rename_i hnet
  rw [counterVal_match] at h
  split at h
  · exact absurd h (by simp)
  rename_i htg
  split at h
  · exact absurd h (by simp)
  rename_i bytes hb64
  -- recover the blob from the encode step
  simp only [databaseRecordTryFrom] at hdb
  split at hdb
  · exact absurd hdb (by simp)
  rename_i t0 hrf
  split at hdb
  · exact absurd hdb (by simp)
  rename_i blob hrm
  simp only [Except.ok.injEq] at hdb
  subst hdb
  -- the server-side base64 decode returns the blob itself
  have hround : fromTransportSafe (toTransportSafe blob) = .ok blob :=
    fromTransportSafe_toTransportSafe blob (rmpToVec_lt_256 r blob hrm)
  rw [hround] at hb64
  simp only [Except.ok.injEq] at hb64
  subst hb64
  -- the iso8601 chain yields the truncated instant
  have hfmt : formatYearOk r.expiry_date = true := by
    simp only [rfc3339Chain] at hrf
    split at hrf
    · assumption
    · exact absurd hrf (by simp)
  simp only [iso8601MicroChain, hfmt, if_true, Option.some.injEq] at hiso
  subst hiso
  simp only [Prod.mk.injEq] at h
  exact ⟨blob, hrm, hnet, htg, h.1.symm, h.2.1.symm⟩

/-- A failed `create` leaves both the database and the caller's record
untouched. -/
theorem create_error_elim (db : Db) (r : Record) (netOk : Bool) (db' : Db)
    (r' : Record) (e : StoreError)
    (h : create db r netOk = (db', r', .error e)) : db' = db ∧ r' = r := by
  simp only [create] at h
  repeat' split at h
  all_goals simp only [Prod.mk.injEq] at h
  all_goals first
    | exact ⟨h.1.symm, h.2.1.symm⟩
    | exact absurd h (by simp)

/-- `save` never touches the counter document. -/
theorem save_counter (db : Db) (r : Record) (netOk : Bool) :
    (save db r netOk).1.counter = db.counter := by
  simp only [save]
  repeat' split
  all_goals rfl

/-- `delete` never touches the counter document. -/
theorem delete_counter (db : Db) (id : Int) (netOk : Bool) :
    (delete db id netOk).1.counter = db.counter := by
  simp only [delete]
  repeat' split
  all_goals rfl

/-- `delete_expired` never touches the counter document. -/
theorem delete_expired_counter (db : Db) (netOk : Bool) :
    (delete_expired db netOk).1.counter = db.counter := by
  simp only [delete_expired]
  split
  all_goals rfl

theorem counterVal_congr {d d' : Db} (h : d.counter = d'.counter) :
    counterVal d = counterVal d' := by
  unfold counterVal
  rw [h]

/-- No operation ever decreases the counter document's value. -/
theorem counterVal_stepDb (db : Db) (op : Op) :
    counterVal db ≤ counterVal (stepDb db op) := by
  cases op with
  | create r netOk =>
    rcases hc : create db r netOk with ⟨db', r', res⟩
    cases res with
    | ok u =>
      obtain ⟨blob, _, _, _, hdb', _⟩ := create_ok_elim db r netOk db' r' u hc
      have : counterVal db' = counterVal db + 1 := by
        rw [hdb']
        simp [counterVal]
      simp only [stepDb, hc, this]
      omega
    | error e =>
      obtain ⟨hdb', _⟩ := create_error_elim db r netOk db' r' e hc
      simp [stepDb, hc, hdb']
  | save r netOk =>
    have h := counterVal_congr (save_counter db r netOk)
    simp only [stepDb, h]
    omega
  | load id netOk => simp [stepDb]
  | delete id netOk =>
    have h := counterVal_congr (delete_counter db id netOk)
    simp only [stepDb, h]
    omega
  | deleteExpired netOk =>
    have h := counterVal_congr (delete_expired_counter db netOk)
    simp only [stepDb, h]
    omega

/-- The counter value never decreases across any sequence of
operations. -/
theorem counterVal_runOps_mono : ∀ (ops : List Op) (db : Db),
    counterVal db ≤ counterVal (runOps db ops) := by
  intro ops
  induction ops with
  | nil => intro db; simp [runOps]
  | cons op ops ih =>
    intro db
    have h1 := counterVal_stepDb db op
    have h2 := ih (stepDb db op)
    simp only [runOps]
    omega

/-- The identifiers assigned by the successful creates of a run are
exactly the integers from one past the initial counter value, in order,
and the final counter value is the initial one plus the number of
successful creates. -/
theorem createdIds_spec : ∀ (ops : List Op) (db : Db),
    createdIds db ops
      = (List.range (numCreated db ops)).map
          (fun (i : Nat) => counterVal db + 1 + (i : Int))
    ∧ counterVal (runOps db ops) = counterVal db + numCreated db ops := by
  intro ops
  induction ops with
  | nil => intro db; simp [createdIds, numCreated, runOps]
  | cons op ops ih =>
    intro db
    cases op with
    | create r netOk =>
      rcases hc : create db r netOk with ⟨db', r', res⟩
      cases res with
      | ok u =>
        obtain ⟨blob, _, _, _, hdb', hr'⟩ := create_ok_elim db r netOk db' r' u hc
        have hcv : counterVal db' = counterVal db + 1 := by
          rw [hdb']
          simp [counterVal]
        have hid : r'.id = counterVal db + 1 := by rw [hr']
        obtain ⟨ih1, ih2⟩ := ih db'
        constructor
        · simp only [createdIds, numCreated, hc]
          rw [ih1, hcv, hid, List.range_succ_eq_map]
          simp only [List.map_cons, List.map_map, Nat.cast_zero, add_zero]
          congr 1
          apply List.map_congr_left
          intro i _
          simp only [Function.comp_apply]
          push_cast
          ring
        · simp only [runOps, stepDb, numCreated, hc]
          rw [ih2, hcv]
          push_cast
          ring
      | error e =>
        obtain ⟨hdb', _⟩ := create_error_elim db r netOk db' r' e hc
        obtain ⟨ih1, ih2⟩ := ih db'
        constructor
        · simp only [createdIds, numCreated, hc]
          rw [ih1, hdb']
        · simp only [runOps, stepDb, numCreated, hc]
          rw [ih2, hdb']
    | save r netOk =>
      obtain ⟨ih1, ih2⟩ := ih (stepDb db (.save r netOk))
      have hcv : counterVal (stepDb db (.save r netOk)) = counterVal db := by
        exact counterVal_congr (by simp [stepDb, save_counter])
      refine ⟨?_, ?_⟩
      · simp only [createdIds, numCreated]
        rw [ih1, hcv]
      · simp only [runOps, numCreated]
        rw [ih2, hcv]
    | load id netOk =>
      obtain ⟨ih1, ih2⟩ := ih (stepDb db (.load id netOk))
      have hcv : counterVal (stepDb db (.load id netOk)) = counterVal db := by
        exact counterVal_congr (by simp [stepDb])
      refine ⟨?_, ?_⟩
      · simp only [createdIds, numCreated]
        rw [ih1, hcv]
      · simp only [runOps, numCreated]
        rw [ih2, hcv]
    | delete id netOk =>
      obtain ⟨ih1, ih2⟩ := ih (stepDb db (.delete id netOk))
      have hcv : counterVal (stepDb db (.delete id netOk)) = counterVal db := by
        exact counterVal_congr (by simp [stepDb, delete_counter])
      refine ⟨?_, ?_⟩
      · simp only [createdIds, numCreated]
        rw [ih1, hcv]
      · simp only [runOps, numCreated]
        rw [ih2, hcv]
    | deleteExpired netOk =>
      obtain ⟨ih1, ih2⟩ := ih (stepDb db (.deleteExpired netOk))
      have hcv : counterVal (stepDb db (.deleteExpired netOk)) = counterVal db := by
        exact counterVal_congr (by simp [stepDb, delete_expired_counter])
      refine ⟨?_, ?_⟩
      · simp only [createdIds, numCreated]
        rw [ih1, hcv]
      · simp only [runOps, numCreated]
        rw [ih2, hcv]

/-! ## Concrete fixtures for the witnesses -/

/-- The empty database: no session rows, absent counter document, server
clock at the epoch. -/
def dbEmpty : Db := ⟨[], none, 0⟩

/-- A minimal record: identifier 0, empty payload, expiry at the
epoch. -/
def recZero : Record := ⟨0, [], 0⟩

/-- A record whose expiry (the first instant of year 10000) no
well-known textual format can render. -/
def recBadExpiry : Record := ⟨0, [], formatMaxNanos⟩

/-- A record expiring one millisecond past the epoch. -/
def recMs : Record := ⟨0, [], 1000000⟩

/-- The serialized blob of `recZero`. -/
def blobZero : List Nat := [0, 0, 0, 0, 0]

/-- A database with one live row (key 1, expiring five seconds after the
clock) and one expired row (key 2, expiry equal to the clock). -/
def dbLoaded : Db :=
  ⟨[(1, ⟨blobZero, 5000000000⟩), (2, ⟨blobZero, 0⟩)], some 2, 0⟩

/-! ## The claims -/

/-- C1: starting from an absent counter document, the identifiers
assigned by the successful creates of any operation sequence are exactly
the contiguous range 1..N for N the number of successful creates (hence
all distinct); every successful create assigns the post-increment
counter value, which is the previous counter value plus one; and the
counter value never decreases across any sequence of operations. -/
theorem createIdsContiguousFromFreshCounter (db : Db) (ops : List Op)
    (h : db.counter = none) :
    createdIds db ops
      = (List.range (numCreated db ops)).map (fun (i : Nat) => 1 + (i : Int))
    ∧ (createdIds db ops).Nodup
    ∧ (∀ (d : Db) (r : Record) (netOk : Bool) (d' : Db) (r' : Record)
        (u : Unit), create d r netOk = (d', r', .ok u) →
        r'.id = counterVal d + 1 ∧ counterVal d' = counterVal d + 1)
    ∧ (∀ (d : Db) (ops' : List Op),
        counterVal d ≤ counterVal (runOps d ops')) := by
  have hc0 : counterVal db = 0 := by simp [counterVal, h]
  obtain ⟨h1, _⟩ := createdIds_spec ops db
  refine ⟨?_, ?_, ?_, ?_⟩
  · rw [h1, hc0]
    simp
  · rw [h1]
    refine List.Nodup.map ?_ (List.nodup_range _)
    intro a b hab
    simp only at hab
    omega
  · intro d r netOk d' r' u hcr
    obtain ⟨blob, _, _, _, hdb', hr'⟩ := create_ok_elim d r netOk d' r' u hcr
    constructor
    · rw [hr']
    · rw [hdb']
      simp [counterVal]
  · exact fun d ops' => counterVal_runOps_mono ops' d

/-- C1 witness: from the empty database, a run of two creates assigns
the identifiers 1 and 2. -/
theorem createIdsContiguousFromFreshCounterWitness :
    dbEmpty.counter = none
    ∧ createdIds dbEmpty [.create recZero true, .create recZero true]
      = (List.range
          (numCreated dbEmpty [.create recZero true, .create recZero true])).map
          (fun (i : Nat) => 1 + (i : Int))
    ∧ createdIds dbEmpty [.create recZero true, .create recZero true]
      = [1, 2] := by
  refine ⟨rfl, (createIdsContiguousFromFreshCounter dbEmpty _ rfl).1, ?_⟩
  simp [createdIds, create, databaseRecordTryFrom, rfc3339Chain, formatYearOk,
    formatMinNanos, formatMaxNanos, rmpToVec, msgpackRepresentable, encInt,
    encVarNat, encJsonObj, iso8601MicroChain, toTransportSafe, b64Sextets,
    b64Char, b64Alphabet, fromTransportSafe, b64Index, b64Unsextets,
    tableGet, Int.fdiv, List.mapM.loop, dbEmpty, recZero]

/-- C2: whenever `create` returns an error at any stage, the caller's
record is exactly as it was before the call; on success it is mutated
only by setting its identifier to the newly allocated identifier. -/
theorem createMutatesOnlyIdOnSuccess (db : Db) (r : Record) (netOk : Bool) :
    ((create db r netOk).2.2.isOk = false → (create db r netOk).2.1 = r)
    ∧ (∀ u, (create db r netOk).2.2 = .ok u →
        (create db r netOk).2.1 = { r with id := counterVal db + 1 }) := by
  rcases hc : create db r netOk with ⟨db', r', res⟩
  constructor
  · intro herr
    cases res with
    | ok u => simp [Except.isOk, Except.toBool] at herr
    | error e =>
      have h2 := (create_error_elim db r netOk db' r' e hc).2
      simpa using h2
  · intro u hok
    cases res with
    | error e => simp at hok
    | ok u' =>
      obtain ⟨blob, _, _, _, _, hr'⟩ := create_ok_elim db r netOk db' r' u' hc
      simpa using hr'

/-- C2 witness: a failing create (unformattable expiry) hands the record
back untouched; a succeeding one only sets the identifier. -/
theorem createMutatesOnlyIdOnSuccessWitness :
    (create dbEmpty recBadExpiry true).2.2.isOk = false
    ∧ (create dbEmpty recBadExpiry true).2.1 = recBadExpiry
    ∧ (create dbEmpty recZero true).2.2 = .ok ()
    ∧ (create dbEmpty recZero true).2.1
        = { recZero with id := counterVal dbEmpty + 1 } := by
  have h1 : (create dbEmpty recBadExpiry true).2.2.isOk = false := by
    simp [create, databaseRecordTryFrom, rfc3339Chain, formatYearOk,
      formatMinNanos, formatMaxNanos, dbEmpty, recBadExpiry, Except.isOk,
      Except.toBool]
  have h2 : (create dbEmpty recZero true).2.2 = .ok () := by
    simp [create, databaseRecordTryFrom, rfc3339Chain, formatYearOk,
      formatMinNanos, formatMaxNanos, rmpToVec, msgpackRepresentable, encInt,
      encVarNat, encJsonObj, iso8601MicroChain, toTransportSafe, b64Sextets,
      b64Char, b64Alphabet, fromTransportSafe, b64Index, b64Unsextets,
      tableGet, Int.fdiv, List.mapM.loop, dbEmpty, recZero]
  exact ⟨h1, (createMutatesOnlyIdOnSuccess dbEmpty recBadExpiry true).1 h1,
    h2, (createMutatesOnlyIdOnSuccess dbEmpty recZero true).2 () h2⟩

/-- C3: encoding a valid session record to a stored record and decoding
that stored record back, then substituting the original identifier for
the decoded one, returns a record equal to the original in identifier,
payload and expiry. -/
theorem codecRoundTripWithIdSubstitution (r : Record)
    (stored : DatabaseRecord) (h : databaseRecordTryFrom r = .ok stored) :
    (recordTryFrom stored).map (fun r0 => { r0 with id := r.id }) = .ok r := by
  simp only [databaseRecordTryFrom] at h
  split at h
  · exact absurd h (by simp)
  rename_i t hrf
  split at h
  · exact absurd h (by simp)
  rename_i blob hrm
  simp only [Except.ok.injEq] at h
  subst h
  simp only [recordTryFrom, rmpFromSlice_rmpToVec r blob hrm, Except.map]

/-- C3 witness: the codec round trip on a concrete record. -/
theorem codecRoundTripWithIdSubstitutionWitness :
    databaseRecordTryFrom recZero = .ok ⟨blobZero, 0⟩
    ∧ (recordTryFrom ⟨blobZero, 0⟩).map (fun r0 => { r0 with id := recZero.id })
        = .ok recZero := by
  have h : databaseRecordTryFrom recZero = .ok ⟨blobZero, 0⟩ := by
    simp [databaseRecordTryFrom, rfc3339Chain, formatYearOk, formatMinNanos,
      formatMaxNanos, rmpToVec, msgpackRepresentable, encInt, encVarNat,
      encJsonObj, recZero, blobZero]
  exact ⟨h, codecRoundTripWithIdSubstitution recZero ⟨blobZero, 0⟩ h⟩

/-- C4: the transport encoding is a pure function of the bytes, and
decoding the padding-free base64 text produced for any byte sequence —
the empty sequence and non-UTF8 sequences included — returns exactly
that sequence. -/
theorem transportRoundTrip (bs : List Nat) (h : ∀ b ∈ bs, b < 256) :
    fromTransportSafe (toTransportSafe bs) = .ok bs :=
  fromTransportSafe_toTransportSafe bs h

/-- C4 witness: the transport round trip at the empty sequence and at a
byte sequence that is not valid UTF-8. -/
theorem transportRoundTripWitness :
    fromTransportSafe (toTransportSafe []) = .ok []
    ∧ fromTransportSafe (toTransportSafe [255, 0, 254, 77])
        = .ok [255, 0, 254, 77] :=
  ⟨transportRoundTrip [] (by decide),
    transportRoundTrip [255, 0, 254, 77] (by decide)⟩

/-- C5: `load` returns `none` — not an error — both when no row exists
for the identifier and when a physically present row's expiry is not
strictly after the clock, with no sweep involved; on a live, decodable
hit it returns the decoded record with the caller-supplied identifier
reattached, regardless of the identifier inside the stored blob. -/
theorem loadLazyExpiryAndReattachment (db : Db) (id : Int) :
    ((tableGet db.sessions id = none
        ∨ ∃ row, tableGet db.sessions id = some row ∧ row.expiry_date ≤ db.now) →
      load db id true = .ok none)
    ∧ (∀ row r, tableGet db.sessions id = some row →
        db.now < row.expiry_date → rmpFromSlice row.record = .ok r →
        load db id true = .ok (some { r with id := id })) := by
  constructor
  · intro h
    rcases h with h | ⟨row, hrow, hexp⟩
    · simp [load, h]
    · simp [load, hrow, not_lt.2 hexp]
  · intro row r hrow hlive hdec
    simp [load, hrow, hlive, recordTryFrom, hdec]

/-- C5 witness: on a concrete table, `load` misses an absent key and an
expired key, and hits a live key with the identifier reattached. -/
theorem loadLazyExpiryAndReattachmentWitness :
    load dbLoaded 2 true = .ok none
    ∧ load dbLoaded 3 true = .ok none
    ∧ load dbLoaded 1 true = .ok (some { recZero with id := 1 }) := by
  have hdec : rmpFromSlice blobZero = .ok recZero := by
    simp [rmpFromSlice, decInt, decVarNat, decJsonObj, blobZero, recZero]
  refine ⟨(loadLazyExpiryAndReattachment dbLoaded 2).1
      (Or.inr ⟨⟨blobZero, 0⟩, by simp [dbLoaded, tableGet], by norm_num [dbLoaded]⟩),
    (loadLazyExpiryAndReattachment dbLoaded 3).1
      (Or.inl (by simp [dbLoaded, tableGet])),
    (loadLazyExpiryAndReattachment dbLoaded 1).2 ⟨blobZero, 5000000000⟩ recZero
      (by simp [dbLoaded, tableGet]) (by norm_num [dbLoaded]) hdec⟩

/-- A database whose session table holds a single row that expired one
hour before the server clock. -/
def dbExpiredRow : Db := ⟨[(1, ⟨blobZero, 0⟩)], some 1, 3600000000000⟩

/-- C6 (code bug): a successful `delete_expired` removes nothing — its
WHERE clause compares the datetime `expiry_date` with the integer
`time::unix(time::now())`, and under SurrealDB's cross-type value
ordering a datetime is never `<=` a number — so a row expired a full
hour before the clock is still physically present after the sweep. -/
theorem deleteExpiredRemovesNothing :
    (∀ db : Db, (delete_expired db true).1.sessions = db.sessions)
    ∧ (delete_expired dbExpiredRow true).2 = .ok ()
    ∧ (⟨blobZero, 0⟩ : DatabaseRecord).expiry_date + 3600000000000
        ≤ dbExpiredRow.now
    ∧ tableGet (delete_expired dbExpiredRow true).1.sessions 1
        = some ⟨blobZero, 0⟩ := by
  have hall : ∀ db : Db, (delete_expired db true).1.sessions = db.sessions := by
    intro db
    simp only [delete_expired, if_true]
    exact List.filter_eq_self.mpr (fun kv _ => by simp [surrealLe])
  refine ⟨hall, by simp [delete_expired], by norm_num [dbExpiredRow], ?_⟩
  rw [hall dbExpiredRow]
  simp [dbExpiredRow, tableGet]

/-- C7: for an identifier in the `i64` range with no physically present
row, `save` (of any record carrying that identifier that serializes)
surfaces "zero rows updated" as a Backend error, while `delete` on the
same condition returns success. -/
theorem saveErrsDeleteSucceedsOnMissing (db : Db) (r : Record)
    (stored : DatabaseRecord)
    (henc : databaseRecordTryFrom r = .ok stored)
    (hrange : -(2 ^ 63) ≤ r.id ∧ r.id < 2 ^ 63)
    (hmiss : tableGet db.sessions r.id = none) :
    (save db r true).2
      = .error (.backend "No record was updated. Probably ID not found")
    ∧ (delete db r.id true).2 = .ok () := by
  have hconv : i128TryIntoI64 r.id = some r.id := by
    unfold i128TryIntoI64
    rw [if_pos hrange]
  constructor
  · simp only [save, henc, hconv, if_true, hmiss]
  · simp only [delete, hconv, if_true]

/-- C7 witness: on the empty table, saving the zero record is a Backend
error and deleting its identifier succeeds. -/
theorem saveErrsDeleteSucceedsOnMissingWitness :
    (save dbEmpty recZero true).2
      = .error (.backend "No record was updated. Probably ID not found")
    ∧ (delete dbEmpty recZero.id true).2 = .ok () := by
  have henc : databaseRecordTryFrom recZero = .ok ⟨blobZero, 0⟩ := by
    simp [databaseRecordTryFrom, rfc3339Chain, formatYearOk, formatMinNanos,
      formatMaxNanos, rmpToVec, msgpackRepresentable, encInt, encVarNat,
      encJsonObj, recZero, blobZero]
  exact saveErrsDeleteSucceedsOnMissing dbEmpty recZero ⟨blobZero, 0⟩ henc
    (by norm_num [recZero]) rfl

/-- C8 counterexample: the identifier -1 lies outside [0, 2^63-1], yet
the `i64` conversion used by `save` and `delete` succeeds on it — and
`delete` on it returns plain success, not a range error — so the claimed
failure domain [0, 2^63-1] is wrong. -/
theorem i64ConversionClaimFalseAtNegOne :
    i128TryIntoI64 (-1) = some (-1)
    ∧ (delete dbEmpty (-1) true).2 = .ok ()
    ∧ ¬ (∀ id : Int, (id < 0 ∨ 2 ^ 63 ≤ id) → i128TryIntoI64 id = none) := by
  have hconv : i128TryIntoI64 (-1) = some (-1) := by
    norm_num [i128TryIntoI64]
  refine ⟨hconv, by simp only [delete, hconv, if_true, dbEmpty], fun h => ?_⟩
  have hbad := h (-1) (by norm_num)
  rw [hconv] at hbad
  exact Option.noConfusion hbad

/-- C8 amended: for every identifier outside the full signed 64-bit
range [-2^63, 2^63-1], the conversion fails, `delete` surfaces the
distinct out-of-range message as an Encode-kind error, and so does
`save` whenever the record itself serializes. -/
theorem i64ConversionRangeAmended (db : Db) (id : Int) (r : Record)
    (stored : DatabaseRecord)
    (hrange : id < -(2 ^ 63) ∨ 2 ^ 63 ≤ id) :
    i128TryIntoI64 id = none
    ∧ (delete db id true).2
        = .error (.encode "ID was out of range for target data type of i64")
    ∧ (r.id = id → databaseRecordTryFrom r = .ok stored →
        (save db r true).2
          = .error (.encode "ID was out of range for target data type of i64")) := by
  have hconv : i128TryIntoI64 id = none := by
    unfold i128TryIntoI64
    rw [if_neg]
    rintro ⟨h1, h2⟩
    rcases hrange with h | h <;> omega
  refine ⟨hconv, by simp only [delete, hconv], ?_⟩
  intro hid henc
  rw [← hid] at hconv
  simp only [save, henc, hconv]

/-- C8 amended witness: at identifier 2^63 the conversion fails and both
operations surface the distinct Encode-kind range error. -/
theorem i64ConversionRangeAmendedWitness :
    ((2 : Int) ^ 63 < -(2 ^ 63) ∨ (2 : Int) ^ 63 ≤ 2 ^ 63)
    ∧ i128TryIntoI64 (2 ^ 63) = none
    ∧ (delete dbEmpty (2 ^ 63) true).2
        = .error (.encode "ID was out of range for target data type of i64")
    ∧ (save dbEmpty ⟨2 ^ 63, [], 0⟩ true).2
        = .error (.encode "ID was out of range for target data type of i64") := by
  have hr : ((2 : Int) ^ 63 < -(2 ^ 63) ∨ (2 : Int) ^ 63 ≤ 2 ^ 63) := by
    norm_num
  have henc : databaseRecordTryFrom ⟨2 ^ 63, [], 0⟩
      = .ok ⟨[0, 128, 128, 128, 128, 128, 128, 128, 128, 128, 1, 0, 0, 0], 0⟩ := by
    simp [databaseRecordTryFrom, rfc3339Chain, formatYearOk, formatMinNanos,
      formatMaxNanos, rmpToVec, msgpackRepresentable, encInt, encVarNat,
      encJsonObj]
  obtain ⟨h1, h2, h3⟩ := i64ConversionRangeAmended dbEmpty (2 ^ 63)
    ⟨2 ^ 63, [], 0⟩
    ⟨[0, 128, 128, 128, 128, 128, 128, 128, 128, 128, 1, 0, 0, 0], 0⟩ hr
  exact ⟨hr, h1, h2, h3 rfl henc⟩

/-- C9: the library codec's failures are error values of the documented
kinds — encoding every record yields either a stored record or an
Encode-kind error, decoding every stored record (malformed and truncated
blobs included) yields either a record or a Decode-kind error — and
whenever the binary's naive `From` variant would terminate the process,
the library surfaces an Encode error value instead. -/
theorem codecFailuresAreValues (r : Record) (stored : DatabaseRecord) :
    ((∃ d, databaseRecordTryFrom r = .ok d)
      ∨ (∃ msg, databaseRecordTryFrom r = .error (.encode msg)))
    ∧ ((∃ r0, recordTryFrom stored = .ok r0)
      ∨ (∃ msg, recordTryFrom stored = .error (.decode msg)))
    ∧ (∀ msg, mainFromRecord r = .panicked msg →
        ∃ m, databaseRecordTryFrom r = .error (.encode m))
    ∧ (∀ msg, mainIntoRecord stored = .panicked msg →
        ∃ m, recordTryFrom stored = .error (.decode m)) := by
  refine ⟨?_, ?_, ?_, ?_⟩
  · unfold databaseRecordTryFrom
    cases rfc3339Chain r.expiry_date with
    | none => exact Or.inr ⟨_, rfl⟩
    | some t =>
      cases rmpToVec r with
      | error e => exact Or.inr ⟨e, rfl⟩
      | ok blob => exact Or.inl ⟨_, rfl⟩
  · unfold recordTryFrom
    cases rmpFromSlice stored.record with
    | error e => exact Or.inr ⟨e, rfl⟩
    | ok r0 => exact Or.inl ⟨r0, rfl⟩
  · intro msg hpanic
    unfold mainFromRecord at hpanic
    unfold databaseRecordTryFrom
    cases hrf : rfc3339Chain r.expiry_date with
    | none => exact ⟨"rfc3339 format failed", by simp only [hrf]⟩
    | some t =>
      simp only [hrf] at hpanic
      cases hrm : rmpToVec r with
      | error e => exact ⟨e, by simp only [hrm]⟩
      | ok blob =>
        simp only [hrm] at hpanic
        exact RustOutcome.noConfusion hpanic
  · intro msg hpanic
    unfold mainIntoRecord at hpanic
    unfold recordTryFrom
    cases hrm : rmpFromSlice stored.record with
    | error e => exact ⟨e, by simp only [hrm]⟩
    | ok r0 =>
      simp only [hrm] at hpanic
      exact RustOutcome.noConfusion hpanic

/-- C9 witness: on a record with an unformattable expiry the binary's
naive variant panics while the library surfaces an Encode error
value. -/
theorem codecFailuresAreValuesWitness :
    mainFromRecord recBadExpiry = .panicked
      "interim_datetime_string conversion from record expiry date failed"
    ∧ ∃ m, databaseRecordTryFrom recBadExpiry = .error (.encode m) := by
  have hp : mainFromRecord recBadExpiry = .panicked
      "interim_datetime_string conversion from record expiry date failed" := by
    simp [mainFromRecord, rfc3339Chain, formatYearOk, formatMinNanos,
      formatMaxNanos, recBadExpiry]
  exact ⟨hp, (codecFailuresAreValues recBadExpiry ⟨[], 0⟩).2.2.1 _ hp⟩

/-- C10: the blob `create` stores is the serialization of the caller's
record taken before the identifier is allocated — it decodes to the full
pre-call record, pre-call identifier included — and a following `load`
of the assigned identifier returns that identifier only because `load`
reattaches it over the decoded blob. -/
theorem createStoresPreCallBlob (db : Db) (r : Record) (db' : Db)
    (r' : Record) (h : create db r true = (db', r', .ok ()))
    (hlive : db.now < 1000 * (r.expiry_date.fdiv 1000)) :
    ∃ row, tableGet db'.sessions r'.id = some row
      ∧ rmpFromSlice row.record = .ok r
      ∧ load db' r'.id true = .ok (some { r with id := r'.id }) := by
  obtain ⟨blob, hrm, _, htg, hdb', hr'⟩ := create_ok_elim db r true db' r' () h
  have hdec := rmpFromSlice_rmpToVec r blob hrm
  refine ⟨⟨blob, 1000 * (r.expiry_date.fdiv 1000)⟩, ?_, hdec, ?_⟩
  · rw [hdb', hr']
    simp [tableGet]
  · rw [hdb', hr']
    simp [load, tableGet, hlive, recordTryFrom, hdec]

/-- C10 witness: a concrete create stores a blob that decodes to the
pre-call record (identifier 0), while load under the assigned
identifier 1 returns the record with identifier 1. -/
theorem createStoresPreCallBlobWitness :
    create dbEmpty recMs true
      = (⟨[(1, ⟨[0, 0, 0, 0, 192, 132, 61], 1000000⟩)], some 1, 0⟩,
          ⟨1, [], 1000000⟩, .ok ())
    ∧ ∃ row,
        tableGet (⟨[(1, ⟨[0, 0, 0, 0, 192, 132, 61], 1000000⟩)], some 1, 0⟩ : Db).sessions
            (⟨1, [], 1000000⟩ : Record).id = some row
        ∧ rmpFromSlice row.record = .ok recMs
        ∧ load ⟨[(1, ⟨[0, 0, 0, 0, 192, 132, 61], 1000000⟩)], some 1, 0⟩
            (⟨1, [], 1000000⟩ : Record).id true
            = .ok (some { recMs with id := (⟨1, [], 1000000⟩ : Record).id }) := by
  have h : create dbEmpty recMs true
      = (⟨[(1, ⟨[0, 0, 0, 0, 192, 132, 61], 1000000⟩)], some 1, 0⟩,
          ⟨1, [], 1000000⟩, .ok ()) := by
    simp [create, databaseRecordTryFrom, rfc3339Chain, formatYearOk,
      formatMinNanos, formatMaxNanos, rmpToVec, msgpackRepresentable, encInt,
      encVarNat, encJsonObj, iso8601MicroChain, toTransportSafe, b64Sextets,
      b64Char, b64Alphabet, fromTransportSafe, b64Index, b64Unsextets,
      tableGet, Int.fdiv, List.mapM.loop, dbEmpty, recMs, counterVal]
  exact ⟨h, createStoresPreCallBlob dbEmpty recMs _ _ h
    (by norm_num [dbEmpty, recMs, Int.fdiv])⟩

end SurrealStore
